import Mathlib

/-!
# Verification of the coax n-step TD target pipeline

Shallow embedding of the repository's Q-learning target computation
(`coax/td_learning/_qlearning.py`), the meta-policy wrapper
(`coax/wrappers/_meta_policy.py`) and the Ape-X worker trace step
(`doc/examples/atari/apex_dqn.py`), together with spec-modelled definitions
for the parts of the pipeline whose code lives outside the provided sources
(the `NStep` reward tracer, `soft_update`, and the TD-learning update step).

Numeric values (rewards, discounts, parameters) are embedded as rationals.
JAX arrays of dynamic rank are embedded as a nested-list tensor `NDArray`,
so that the rank assertions (`assert Q_s.ndim == 2`, `assert Q_sa.ndim == 1`)
in `target_func` can be stated and shown to guard the computation.  A failed
assertion is modelled as the `none` outcome.
-/

/-- A dynamically ranked numeric array, embedding `jax.numpy` arrays:
a scalar, or a list of sub-arrays.  Well-formed (non-ragged) arrays are
built with `NDArray.vec` and `NDArray.table` below. -/
inductive NDArray where
  | scalar (q : ℚ) : NDArray
  | array (elems : List NDArray) : NDArray

/-- Number of axes of an array, embedding `jnp.ndarray.ndim`.  For the
well-formed arrays produced by `NDArray.vec` / `NDArray.table` this agrees
with the numpy rank. -/
def NDArray.ndim : NDArray → Nat
  | .scalar _ => 0
  | .array [] => 1
  | .array (x :: _) => 1 + x.ndim

/-- A one-dimensional array of scalars. -/
def NDArray.vec (l : List ℚ) : NDArray := .array (l.map NDArray.scalar)

/-- A two-dimensional `[batch, k]` array, given as a list of rows. -/
def NDArray.table (rows : List (List ℚ)) : NDArray := .array (rows.map NDArray.vec)

/-- Mapping a fallible function over a list, failing when any element fails. -/
def mapOption (f : a → Option b) : List a → Option (List b)
  | [] => some []
  | x :: xs =>
    match f x, mapOption f xs with
    | some y, some ys => some (y :: ys)
    | _, _ => none

/-- Extract a scalar entry. -/
def NDArray.asScalar : NDArray → Option ℚ
  | .scalar q => some q
  | .array _ => none

/-- Extract a one-dimensional array as a list of rationals. -/
def NDArray.asVec : NDArray → Option (List ℚ)
  | .scalar _ => none
  | .array xs => mapOption NDArray.asScalar xs

/-- Maximum of a list of rationals (`jnp.max` over one axis; the empty
reduction is an error in JAX and is excluded by the callers below). -/
def listMax : List ℚ → ℚ
  | [] => 0
  | q :: qs => qs.foldl max q

/-- Reduce one row of a 2-D array to its maximum; fails on a non-row or an
empty row (JAX raises on a zero-size reduction axis). -/
def NDArray.rowMax (a : NDArray) : Option ℚ :=
  a.asVec.bind fun l =>
    match l with
    | [] => none
    | q :: qs => some (listMax (q :: qs))

/-- `jnp.max(Q_s, axis=1)`: reduce each row of a 2-D array to its maximum,
producing a 1-D array. -/
def NDArray.maxAxis1 : NDArray → Option NDArray
  | .scalar _ => none
  | .array rows => (mapOption NDArray.rowMax rows).map NDArray.vec

/-- Pointwise combination of three lists (broadcast arithmetic over the
batch axis, all operands having the same batch length). -/
def zipWith3 (f : a → b → c → d) : List a → List b → List c → List d
  | x :: xs, y :: ys, z :: zs => f x y z :: zipWith3 f xs ys zs
  | _, _, _ => []

/-- The `TransitionBatch` exchanged between tracer, buffer and updater
(`coax.reward_tracing.TransitionBatch`): parallel arrays, batch axis first.
Positional fields 3:6 are `Rn`, `In`, `S_next`, as unpacked by
`transition_batch[3:6]` in `QLearning.target_func`. -/
structure TransitionBatch (σ α : Type) where
  S : List σ
  A : List α
  logp : List ℚ
  Rn : List ℚ
  In : List ℚ
  S_next : List σ
  W : List ℚ
  idx : List Nat

/-- The action-space descriptor: `gym.spaces.Discrete(n)` or any
non-discrete space (`Box` etc.). -/
inductive ActionSpace where
  | discrete (n : Nat) : ActionSpace
  | continuous : ActionSpace
deriving DecidableEq

/-- `isinstance(space, Discrete)`. -/
def ActionSpace.isDiscrete : ActionSpace → Bool
  | .discrete _ => true
  | .continuous => false

/-- The `QLearning` updater object (`coax.td_learning.QLearning`) with its
target parameters and function state already applied: `q_targ_type2` /
`q_targ_type1` embed `self.q_targ.function_type2` / `function_type1` at the
given `target_params['q_targ']` and `target_state['q_targ']`; `pi_targ_fun`
embeds `self.pi_targ.function` at `target_params['pi_targ']`; `pi_targ_mode`
embeds `self.pi_targ.proba_dist.mode`; `prng_seq` embeds successive keys of
`hk.PRNGSequence(rng)`; `f` and `f_inv` are `self.value_transform`. -/
structure QLearning (σ α δ ρ : Type) where
  action_space : ActionSpace
  f : ℚ → ℚ
  f_inv : ℚ → ℚ
  q_targ_type2 : ρ → List σ → NDArray
  q_targ_type1 : ρ → List σ → List α → NDArray
  pi_targ_fun : ρ → List σ → δ
  pi_targ_mode : δ → List α
  prng_seq : ρ → Nat → ρ

/-- `QLearning.target_func` (`coax/td_learning/_qlearning.py`, lines
127-150).  Discrete branch: evaluate `function_type2` on `S_next` with the
raw `rng`, assert the result is 2-D, and take `jnp.max(Q_s, axis=1)`.
Non-discrete branch: evaluate the target policy with the first PRNG key,
take the mode, and evaluate `function_type1` with the second key.  Both
branches then assert `Q_sa.ndim == 1` and return `f(Rn + In * f_inv(Q_sa))`.
A failed assertion is the `none` outcome. -/
def QLearning.target_func (m : QLearning σ α δ ρ) (rng : ρ)
    (tb : TransitionBatch σ α) : Option (List ℚ) :=
  let Rn := tb.Rn
  let In := tb.In
  let S_next := tb.S_next
  let Qsa : Option NDArray :=
    match m.action_space with
    | .discrete _ =>
        let Q_s := m.q_targ_type2 rng S_next
        if Q_s.ndim = 2 then Q_s.maxAxis1 else none
    | .continuous =>
        let dist_params := m.pi_targ_fun (m.prng_seq rng 0) S_next
        let A_next := m.pi_targ_mode dist_params
        some (m.q_targ_type1 (m.prng_seq rng 1) S_next A_next)
  match Qsa with
  | none => none
  | some q =>
      if q.ndim = 1 then
        q.asVec.map fun qs =>
          zipWith3 (fun r i x => m.f (r + i * m.f_inv x)) Rn In qs
      else none

/-- Outcome of the `QLearning.__init__` consistency checks: a fatal
configuration error (a `TypeError` aborting construction) or successful
construction, with the flag recording whether the non-fatal
"pi_targ is ignored" warning was emitted. -/
inductive InitOutcome where
  | error (msg : String) : InitOutcome
  | ok (warned : Bool) : InitOutcome
deriving DecidableEq

/-- `QLearning.__init__` consistency checks
(`coax/td_learning/_qlearning.py`, lines 121-125): raise when `pi_targ` is
missing and the action space is not discrete; warn when `pi_targ` is
supplied and the action space is discrete. -/
def qlearning_init_checks (action_space : ActionSpace)
    (pi_targ_provided : Bool) : InitOutcome :=
  if !pi_targ_provided && !action_space.isDiscrete then
    .error "pi_targ must be provided if action space is not discrete"
  else
    .ok (pi_targ_provided && action_space.isDiscrete)

/-- Modelled from the spec: a value function's numeric state — `params`
(the parameter blob) and `function_state` (auxiliary state such as running
statistics), each flattened to a list of scalars.  The concrete
`coax.Q` / `coax.FuncApprox` implementation is not among the provided
sources. -/
structure FuncParams where
  params : List ℚ
  function_state : List ℚ
deriving DecidableEq

/-- Modelled from the spec: `target.soft_update(source, tau)` blends the
target parameters toward the source parameters elementwise,
`θ_targ ← (1-τ)·θ_targ + τ·θ_source`, and applies the identical blend to
the auxiliary function state.  The implementation of `soft_update` is not
among the provided sources.  The functional embedding returns the new
target value; the in-place assignment is captured by
`TargetPair.do_soft_update`. -/
def soft_update (targ src : FuncParams) (tau : ℚ) : FuncParams :=
  { params := List.zipWith (fun t s => (1 - tau) * t + tau * s)
      targ.params src.params
    function_state := List.zipWith (fun t s => (1 - tau) * t + tau * s)
      targ.function_state src.function_state }

/-- A target/source pair of value-function states, for expressing that the
statement `q_targ.soft_update(q, tau)` re-assigns only the target. -/
structure TargetPair where
  targ : FuncParams
  src : FuncParams
deriving DecidableEq

/-- The state change effected by `q_targ.soft_update(q, tau)`: the target
is re-assigned the blended parameters, the source is untouched. -/
def TargetPair.do_soft_update (p : TargetPair) (tau : ℚ) : TargetPair :=
  { targ := soft_update p.targ p.src tau, src := p.src }

/-- Modelled from the spec: the parameter state acted on by one
`TDLearningUpdater.update` call — the trained value function's parameters
and the referenced target value function / target policy parameters.  The
updater base class is not among the provided sources. -/
structure TDUpdaterState where
  theta : List ℚ
  theta_targ : List ℚ
  theta_pi_targ : List ℚ
deriving DecidableEq

/-- Modelled from the spec: one `TDLearningUpdater.update` call — compute
the target `G` from the target parameters (`compute_target`), treat it as a
fixed label (stop-gradient: `grad_step` receives `G` only as an opaque
number), and perform one gradient-based step on the trained parameters
only.  `grad_step` abstracts the loss, the gradient and the optimizer. -/
def td_update (compute_target : List ℚ → List ℚ → ℚ)
    (grad_step : List ℚ → ℚ → List ℚ) (st : TDUpdaterState) : TDUpdaterState :=
  let G := compute_target st.theta_targ st.theta_pi_targ
  { st with theta := grad_step st.theta G }

/-- Modelled from the spec: one environment transition as passed to
`NStep.add(s, a, r, done, logp)`.  The `coax.reward_tracing.NStep` tracer
used by the examples is not among the provided sources. -/
structure Transition (σ α : Type) where
  s : σ
  a : α
  r : ℚ
  done : Bool
  logp : ℚ
deriving DecidableEq

/-- One emitted n-step sample (a single row of a `TransitionBatch`): start
state, action and log-propensity, the n-step return `Rn`, the bootstrap
indicator `In`, and the bootstrap state `S_next`. -/
structure NStepBatch (σ α : Type) where
  s : σ
  a : α
  logp : ℚ
  Rn : ℚ
  In : ℚ
  S_next : σ
deriving DecidableEq

/-- Discounted sum of the rewards of a window: `Rn = Σ_k γ^k R_{t+k}`. -/
def discSum (γ : ℚ) : List (Transition σ α) → ℚ
  | [] => 0
  | tr :: rest => tr.r + γ * discSum γ rest

/-- Index of the first terminal transition of a trajectory, if any. -/
def firstDoneIdx : List (Transition σ α) → Option Nat
  | [] => none
  | tr :: rest => if tr.done then some 0 else (firstDoneIdx rest).map (· + 1)

/-- Modelled from the spec: the batch the `NStep(n, γ)` tracer emits for
start offset `t` of a trajectory.  A full window of `n` transitions lying
strictly before the first terminal transition is emitted with `In = γ^n`
and `S_next` the state of transition `t+n` (available only once that
transition has been added, hence the window is pending when the trajectory
ends without a terminal).  A window cut short by the terminal transition is
flushed with `In = 0`, `S_next` the terminal observation `sTerm`, and `Rn`
summed over the shortened window.  Offsets after the terminal belong to a
later trajectory and emit nothing here. -/
def nstepEmitAt (n : Nat) (γ : ℚ) (traj : List (Transition σ α)) (sTerm : σ)
    (t : Nat) : Option (NStepBatch σ α) :=
  match traj.get? t with
  | none => none
  | some tr0 =>
    match firstDoneIdx traj with
    | some d =>
      if d < t then none
      else if t + n ≤ d then
        match traj.get? (t + n) with
        | some trn =>
            some ⟨tr0.s, tr0.a, tr0.logp,
              discSum γ ((traj.drop t).take n), γ ^ n, trn.s⟩
        | none => none
      else
        some ⟨tr0.s, tr0.a, tr0.logp,
          discSum γ ((traj.drop t).take (d + 1 - t)), 0, sTerm⟩
    | none =>
      if t + n < traj.length then
        match traj.get? (t + n) with
        | some trn =>
            some ⟨tr0.s, tr0.a, tr0.logp,
              discSum γ ((traj.drop t).take n), γ ^ n, trn.s⟩
        | none => none
      else none

/-- Modelled from the spec: all batches the `NStep(n, γ)` tracer emits over
a whole trajectory (draining `pop`/`flush` after every `add`), in order of
start offset. -/
def nstepTrace (n : Nat) (γ : ℚ) (traj : List (Transition σ α)) (sTerm : σ) :
    List (NStepBatch σ α) :=
  (List.range traj.length).filterMap (nstepEmitAt n γ traj sTerm)

/-- The mutable state of an `ApexWorker` as touched by `ApexWorker.trace`:
the tracer state, the trained and target q-function parameter states, the
log of `buffer_add` calls (batch with its TD-error priority signal), and
the `buffer.beta` attribute pushed to the parameter store. -/
structure ApexWorkerState (τ β : Type) where
  tracer : τ
  q : FuncParams
  q_targ : FuncParams
  buffer : List (β × ℚ)
  buffer_beta : ℚ

/-- `ApexWorker.trace` (`doc/examples/atari/apex_dqn.py`, lines 43-51):
add the transition to the tracer, soft-update the target network with
`tau=0.001`, and on `done` flush the tracer, compute the TD error, add the
flushed batch to the buffer and push the current `beta`.  The tracer
(`tracer_add`, `tracer_flush`), the TD error (`td_error_of`) and the
annealing schedule (`beta_at`, evaluated at the monitor's step counter `T`)
are abstract parameters. -/
def ApexWorker.trace (tracer_add : τ → σ → α → ℚ → Bool → ℚ → τ)
    (tracer_flush : τ → β × τ) (td_error_of : β → ℚ) (beta_at : Nat → ℚ)
    (T : Nat) (st : ApexWorkerState τ β)
    (s : σ) (a : α) (r : ℚ) (done : Bool) (logp : ℚ) : ApexWorkerState τ β :=
  let st1 := { st with tracer := tracer_add st.tracer s a r done logp }
  let st2 := { st1 with q_targ := soft_update st1.q_targ st1.q (1 / 1000) }
  if done then
    let fl := tracer_flush st2.tracer
    { st2 with
        tracer := fl.2
        buffer := st2.buffer ++ [(fl.1, td_error_of fl.1)]
        buffer_beta := beta_at T }
  else st2

/-- An arm of the meta policy: a callable taking a state and returning an
action, either without a `return_logp` keyword (log-propensity defaults to
`0.`) or accepting it (returning the action with its log-propensity).  The
`inspect.getargspec` probe in `MetaPolicyEnv.step` is embedded as this
tag. -/
inductive Arm (σ α : Type) where
  | plain (f : σ → α) : Arm σ α
  | with_logp (f : σ → α × ℚ) : Arm σ α

/-- Calling an arm the way `MetaPolicyEnv.step` does: pass
`return_logp=True` when accepted, otherwise take `logp = 0.`. -/
def Arm.call : Arm σ α → σ → α × ℚ
  | .plain f, s => (f s, 0)
  | .with_logp f, s => f s

/-- `MetaPolicyEnv` state (`coax/wrappers/_meta_policy.py`): the arms and
the stored current observation `self._s` (`none` until `reset` is called).
The meta action space is `Discrete(len(arms))`. -/
structure MetaPolicyEnv (σ α : Type) where
  arms : List (Arm σ α)
  cur_s : Option σ

/-- `MetaPolicyEnv.reset`: reset the wrapped environment (its initial
observation supplied as `s0`) and store the observation. -/
def MetaPolicyEnv.reset (s0 : σ) (st : MetaPolicyEnv σ α) :
    MetaPolicyEnv σ α × σ :=
  ({ st with cur_s := some s0 }, s0)

/-- The info dict returned by `MetaPolicyEnv.step` after
`info.update({'a': a, 'logp': logp})`. -/
structure StepInfo (α : Type) where
  a : α
  logp : ℚ

/-- `MetaPolicyEnv.step` (`coax/wrappers/_meta_policy.py`, lines 62-75):
assert that the meta action is a member of `Discrete(len(arms))` and that a
current state is stored, select the arm, sample the lower-level action,
step the wrapped environment (`env_step`, abstract), store the new
observation and return it with the reward, the done flag and the info dict
recording `a` and `logp`.  A failed assertion is the `none` outcome. -/
def MetaPolicyEnv.step (env_step : σ → α → σ × ℚ × Bool)
    (st : MetaPolicyEnv σ α) (a_meta : Nat) :
    Option (MetaPolicyEnv σ α × σ × ℚ × Bool × StepInfo α) :=
  if h : a_meta < st.arms.length then
    match st.cur_s with
    | none => none
    | some s0 =>
      let al := (st.arms.get ⟨a_meta, h⟩).call s0
      let out := env_step s0 al.1
      some ({ st with cur_s := some out.1 }, out.1, out.2.1, out.2.2,
        ⟨al.1, al.2⟩)
  else none

/-! ## Concrete instances used to exercise the theorems -/

/-- A discrete-action `QLearning` instance: `k = 3` actions, identity value
transform, target value table `[[1, 5, 2]]` for every batch. -/
def exQLDisc : QLearning ℕ ℕ ℕ ℕ :=
  { action_space := .discrete 3
    f := fun x => x
    f_inv := fun x => x
    q_targ_type2 := fun _ _ => NDArray.table [[1, 5, 2]]
    q_targ_type1 := fun _ _ _ => NDArray.vec [4]
    pi_targ_fun := fun _ _ => 0
    pi_targ_mode := fun _ => [0]
    prng_seq := fun r i => r + i }

/-- The same instance over a non-discrete action space. -/
def exQLCont : QLearning ℕ ℕ ℕ ℕ :=
  { exQLDisc with action_space := .continuous }

/-- Discrete instance whose type-2 evaluation returns a 1-D array — a
misconfigured value function violating the rank contract. -/
def exQLDiscBad : QLearning ℕ ℕ ℕ ℕ :=
  { exQLDisc with q_targ_type2 := fun _ _ => NDArray.vec [1] }

/-- Non-discrete instance whose type-1 evaluation returns a 2-D array — a
misconfigured value function violating the rank contract. -/
def exQLContBad : QLearning ℕ ℕ ℕ ℕ :=
  { exQLCont with q_targ_type1 := fun _ _ _ => NDArray.table [[1]] }

/-- A singleton transition batch. -/
def exTB : TransitionBatch ℕ ℕ :=
  { S := [10], A := [0], logp := [0], Rn := [1], In := [99/100],
    S_next := [11], W := [1], idx := [0] }

/-- A batch agreeing with `exTB` on `Rn`, `In` and `S_next` but differing
in `S`, `A`, `logp`, `W` and `idx`. -/
def exTB2 : TransitionBatch ℕ ℕ :=
  { S := [55], A := [2], logp := [-1], Rn := [1], In := [99/100],
    S_next := [11], W := [3], idx := [9] }

/-- A concrete target parameter state. -/
def exFPTarg : FuncParams := { params := [2, 4], function_state := [6] }

/-- A concrete source parameter state of the same shape. -/
def exFPSrc : FuncParams := { params := [10, 0], function_state := [2] }

/-- A concrete updater parameter state. -/
def exUpdSt : TDUpdaterState :=
  { theta := [1], theta_targ := [2], theta_pi_targ := [3] }

/-- Same trained parameters as `exUpdSt`, different target parameters. -/
def exUpdSt2 : TDUpdaterState :=
  { theta := [1], theta_targ := [5], theta_pi_targ := [7] }

/-- The two-step trajectory of the end-to-end tracing scenario:
`(s0, a0, r=1, done=False)` then `(s1, a1, r=1, done=True)`, with states
numbered `0`, `1` and terminal state `2`. -/
def exTraj : List (Transition ℕ ℕ) :=
  [⟨0, 0, 1, false, 0⟩, ⟨1, 1, 1, true, 0⟩]

/-- A concrete meta-policy environment: two arms over natural-number states
and actions, with a current state stored. -/
def exMeta : MetaPolicyEnv ℕ ℕ :=
  { arms := [.plain (fun s => s + 1), .with_logp (fun s => (s, 1/2))]
    cur_s := some 5 }

/-- The same meta-policy environment before any `reset`. -/
def exMetaUnreset : MetaPolicyEnv ℕ ℕ :=
  { arms := exMeta.arms, cur_s := none }

/-- A concrete wrapped-environment step function. -/
def exEnvStep : ℕ → ℕ → ℕ × ℚ × Bool := fun s a => (s + a, 2, false)

/-! ## Basic facts about the array model -/

theorem mapOption_asScalar_map (l : List ℚ) :
    mapOption NDArray.asScalar (l.map NDArray.scalar) = some l := by
  induction l with
  | nil => rfl
  | cons q qs ih => simp [mapOption, NDArray.asScalar, ih]

theorem asVec_vec (l : List ℚ) : (NDArray.vec l).asVec = some l := by
  simp [NDArray.vec, NDArray.asVec, mapOption_asScalar_map]

theorem ndim_vec (l : List ℚ) : (NDArray.vec l).ndim = 1 := by
  cases l with
  | nil => rfl
  | cons q qs => rfl

theorem rowMax_vec (l : List ℚ) (h : l ≠ []) :
    (NDArray.vec l).rowMax = some (listMax l) := by
  cases l with
  | nil => exact absurd rfl h
  | cons q qs => simp [NDArray.rowMax, asVec_vec]

theorem mapOption_rowMax_rows (rows : List (List ℚ)) (h : ∀ r ∈ rows, r ≠ []) :
    mapOption NDArray.rowMax (rows.map NDArray.vec) = some (rows.map listMax) := by
  induction rows with
  | nil => rfl
  | cons r rs ih =>
      have hr : r ≠ [] := h r (by simp)
      have hrs : ∀ x ∈ rs, x ≠ [] := fun x hx => h x (by simp [hx])
      simp [mapOption, rowMax_vec r hr, ih hrs]

theorem maxAxis1_table (rows : List (List ℚ)) (h : ∀ r ∈ rows, r ≠ []) :
    (NDArray.table rows).maxAxis1 = some (NDArray.vec (rows.map listMax)) := by
  simp [NDArray.table, NDArray.maxAxis1, mapOption_rowMax_rows rows h]

theorem ndim_table (r0 : List ℚ) (rest : List (List ℚ)) :
    (NDArray.table (r0 :: rest)).ndim = 2 := by
  simp [NDArray.table, NDArray.ndim, ndim_vec]

/-! ## Evaluation of the two branches of `target_func` -/

/-- Discrete branch of `target_func`: when the type-2 evaluation yields a
well-formed `[batch, k]` table, the target is `f (Rn + In * f_inv (max_a Q))`,
row maxima taken over the action axis. -/
theorem target_func_discrete_eval (m : QLearning σ α δ ρ) (rng : ρ)
    (tb : TransitionBatch σ α) (k : Nat) (rows : List (List ℚ))
    (hspace : m.action_space = .discrete k)
    (hq : m.q_targ_type2 rng tb.S_next = NDArray.table rows)
    (hne : rows ≠ []) (hrow : ∀ r ∈ rows, r ≠ []) :
    m.target_func rng tb =
      some (zipWith3 (fun r i x => m.f (r + i * m.f_inv x))
        tb.Rn tb.In (rows.map listMax)) := by
  obtain ⟨r0, rest, rfl⟩ : ∃ r0 rest, rows = r0 :: rest := by
    cases rows with
    | nil => exact absurd rfl hne
    | cons r0 rest => exact ⟨r0, rest, rfl⟩
  simp only [QLearning.target_func, hspace, hq]
  rw [ndim_table, maxAxis1_table _ hrow]
  simp [ndim_vec, asVec_vec]

/-- Non-discrete branch of `target_func`: when the type-1 evaluation at the
target policy's mode yields a 1-D batch `qs`, the target is
`f (Rn + In * f_inv qs)` pointwise. -/
theorem target_func_continuous_eval (m : QLearning σ α δ ρ) (rng : ρ)
    (tb : TransitionBatch σ α) (qs : List ℚ)
    (hspace : m.action_space = .continuous)
    (hq : m.q_targ_type1 (m.prng_seq rng 1) tb.S_next
        (m.pi_targ_mode (m.pi_targ_fun (m.prng_seq rng 0) tb.S_next)) =
        NDArray.vec qs) :
    m.target_func rng tb =
      some (zipWith3 (fun r i x => m.f (r + i * m.f_inv x)) tb.Rn tb.In qs) := by
  simp only [QLearning.target_func, hspace, hq]
  simp [ndim_vec, asVec_vec]

/-! ## Claims about `QLearning` -/

/-- C1: For every transition batch and every discrete action space of size
`k`, `target_func` evaluates the target value function in type-2 mode on
`S_next` to obtain a `[batch, k]` table of action values, takes the maximum
over the action axis to obtain `Q_sa`, and returns
`G = f (Rn + In * f_inv Q_sa)` using the configured invertible value
transform; no target policy is consulted in this branch (the result is
unchanged under arbitrary replacement of the policy-related components). -/
theorem c1_discrete_target_is_max_bootstrap
    (m : QLearning σ α δ ρ) (rng : ρ) (tb : TransitionBatch σ α)
    (k : Nat) (rows : List (List ℚ))
    (hspace : m.action_space = .discrete k)
    (hq : m.q_targ_type2 rng tb.S_next = NDArray.table rows)
    (hne : rows ≠ []) (hrow : ∀ r ∈ rows, r ≠ []) :
    m.target_func rng tb =
      some (zipWith3 (fun r i x => m.f (r + i * m.f_inv x))
        tb.Rn tb.In (rows.map listMax)) ∧
    ∀ m2 : QLearning σ α δ ρ, m2.action_space = m.action_space →
      m2.f = m.f → m2.f_inv = m.f_inv → m2.q_targ_type2 = m.q_targ_type2 →
      m2.target_func rng tb = m.target_func rng tb := by
  constructor
  · exact target_func_discrete_eval m rng tb k rows hspace hq hne hrow
  · intro m2 h1 h2 h3 h4
    simp only [QLearning.target_func, h1, h2, h3, h4, hspace]

/-- Witness for C1 on the concrete instance: value table `[[1, 5, 2]]`,
single-sample batch. -/
theorem c1_discrete_target_is_max_bootstrap_witness :
    QLearning.target_func exQLDisc 0 exTB =
      some (zipWith3 (fun r i x => exQLDisc.f (r + i * exQLDisc.f_inv x))
        exTB.Rn exTB.In ([[1, 5, 2]].map listMax)) :=
  (c1_discrete_target_is_max_bootstrap exQLDisc 0 exTB 3 [[1, 5, 2]]
    rfl rfl (by decide) (by decide)).1

/-- C2: For every transition batch and a non-discrete action space,
`target_func` evaluates the target policy's conditional distribution on
`S_next`, extracts its mode `A_next`, evaluates the target value function
in type-1 mode at `(S_next, A_next)` to obtain `Q_sa`, and returns
`f (Rn + In * f_inv Q_sa)`; with the identity transform this equals
`Rn + In * Q(S_next, A_next)`. -/
theorem c2_continuous_target_uses_policy_mode
    (m : QLearning σ α δ ρ) (rng : ρ) (tb : TransitionBatch σ α)
    (qs : List ℚ)
    (hspace : m.action_space = .continuous)
    (hq : m.q_targ_type1 (m.prng_seq rng 1) tb.S_next
        (m.pi_targ_mode (m.pi_targ_fun (m.prng_seq rng 0) tb.S_next)) =
        NDArray.vec qs) :
    m.target_func rng tb =
      some (zipWith3 (fun r i x => m.f (r + i * m.f_inv x)) tb.Rn tb.In qs) ∧
    (m.f = (fun x => x) → m.f_inv = (fun x => x) →
      m.target_func rng tb =
        some (zipWith3 (fun r i x => r + i * x) tb.Rn tb.In qs)) := by
  have h1 := target_func_continuous_eval m rng tb qs hspace hq
  refine ⟨h1, fun hf hfi => ?_⟩
  rw [h1, hf, hfi]

/-- Witness for C2 on the concrete non-discrete instance: type-1 target
value `[4]`, identity transform. -/
theorem c2_continuous_target_uses_policy_mode_witness :
    QLearning.target_func exQLCont 0 exTB =
      some (zipWith3 (fun r i x => r + i * x) exTB.Rn exTB.In [4]) :=
  (c2_continuous_target_uses_policy_mode exQLCont 0 exTB [4] rfl rfl).2 rfl rfl

/-- C3: Construction with a non-discrete action space and no `pi_targ`
fails with the configuration error; construction with a discrete action
space and a `pi_targ` supplied succeeds with the non-fatal warning; all
other combinations construct without error or warning from these checks. -/
theorem c3_init_consistency_checks (space : ActionSpace) (p : Bool) :
    (qlearning_init_checks space p =
        .error "pi_targ must be provided if action space is not discrete" ↔
      p = false ∧ space.isDiscrete = false) ∧
    (qlearning_init_checks space p = .ok true ↔
      p = true ∧ space.isDiscrete = true) ∧
    (qlearning_init_checks space p = .ok false ↔
      (p = true ∧ space.isDiscrete = false) ∨
      (p = false ∧ space.isDiscrete = true)) := by
  cases space <;> cases p <;>
    simp [qlearning_init_checks, ActionSpace.isDiscrete]

/-- C4: The bootstrap value must be strictly one-dimensional and, in the
discrete branch, the type-2 table exactly two-dimensional; any other rank
makes the call fail (the `none` outcome) rather than being silently
reshaped, and under the expected-rank precondition the failure branches are
unreachable (the call returns a value). -/
theorem c4_rank_assertions_guard_target
    (m : QLearning σ α δ ρ) (rng : ρ) (tb : TransitionBatch σ α) (k : Nat) :
    (m.action_space = .discrete k →
      (m.q_targ_type2 rng tb.S_next).ndim ≠ 2 →
      m.target_func rng tb = none) ∧
    (m.action_space = .continuous →
      (m.q_targ_type1 (m.prng_seq rng 1) tb.S_next
        (m.pi_targ_mode (m.pi_targ_fun (m.prng_seq rng 0) tb.S_next))).ndim ≠ 1 →
      m.target_func rng tb = none) ∧
    (m.action_space = .discrete k →
      ∀ rows : List (List ℚ),
        m.q_targ_type2 rng tb.S_next = NDArray.table rows →
        rows ≠ [] → (∀ r ∈ rows, r ≠ []) →
        (m.target_func rng tb).isSome = true) ∧
    (m.action_space = .continuous →
      ∀ qs : List ℚ,
        m.q_targ_type1 (m.prng_seq rng 1) tb.S_next
          (m.pi_targ_mode (m.pi_targ_fun (m.prng_seq rng 0) tb.S_next)) =
          NDArray.vec qs →
        (m.target_func rng tb).isSome = true) := by
  refine ⟨?_, ?_, ?_, ?_⟩
  · intro hspace hnd
    simp [QLearning.target_func, hspace, hnd]
  · intro hspace hnd
    simp [QLearning.target_func, hspace, hnd]
  · intro hspace rows hq hne hrow
    rw [target_func_discrete_eval m rng tb k rows hspace hq hne hrow]
    rfl
  · intro hspace qs hq
    rw [target_func_continuous_eval m rng tb qs hspace hq]
    rfl

/-- Witness for C4: a 1-D type-2 output and a 2-D type-1 output each make
the call fail; the well-shaped instances succeed. -/
theorem c4_rank_assertions_guard_target_witness :
    QLearning.target_func exQLDiscBad 0 exTB = none ∧
    QLearning.target_func exQLContBad 0 exTB = none ∧
    (QLearning.target_func exQLDisc 0 exTB).isSome = true ∧
    (QLearning.target_func exQLCont 0 exTB).isSome = true :=
  ⟨(c4_rank_assertions_guard_target exQLDiscBad 0 exTB 3).1 rfl (by decide),
   (c4_rank_assertions_guard_target exQLContBad 0 exTB 3).2.1 rfl (by decide),
   (c4_rank_assertions_guard_target exQLDisc 0 exTB 3).2.2.1 rfl [[1, 5, 2]]
     rfl (by decide) (by decide),
   (c4_rank_assertions_guard_target exQLCont 0 exTB 3).2.2.2 rfl [4] rfl⟩

/-- C5: Two transition batches that agree on `Rn`, `In` and `S_next` but
differ arbitrarily in `S`, `A`, `logp`, `W` and `idx` receive equal targets
from `target_func` under the same instance and rng: the computed target is
independent of which action was actually taken. -/
theorem c5_target_independent_of_taken_action
    (m : QLearning σ α δ ρ) (rng : ρ) (tb1 tb2 : TransitionBatch σ α)
    (hR : tb1.Rn = tb2.Rn) (hI : tb1.In = tb2.In)
    (hS : tb1.S_next = tb2.S_next) :
    m.target_func rng tb1 = m.target_func rng tb2 := by
  simp only [QLearning.target_func, hR, hI, hS]

/-- Witness for C5: `exTB` and `exTB2` differ in `S`, `A`, `logp`, `W`,
`idx` and receive the same target. -/
theorem c5_target_independent_of_taken_action_witness :
    QLearning.target_func exQLDisc 0 exTB =
      QLearning.target_func exQLDisc 0 exTB2 :=
  c5_target_independent_of_taken_action exQLDisc 0 exTB exTB2 rfl rfl rfl

/-! ## Claims about target-network synchronization and the update step -/

theorem zipWith_get_some (f : ℚ → ℚ → ℚ) :
    ∀ (l1 l2 : List ℚ) (i : Nat) (x y : ℚ),
      l1.get? i = some x → l2.get? i = some y →
      (List.zipWith f l1 l2).get? i = some (f x y) := by
  intro l1
  induction l1 with
  | nil => intro l2 i x y h1 _; simp at h1
  | cons a as ih =>
    intro l2 i x y h1 h2
    cases l2 with
    | nil => simp at h2
    | cons b bs =>
      cases i with
      | zero =>
        simp only [List.get?_cons_zero, Option.some.injEq] at h1 h2
        subst h1; subst h2; rfl
      | succ j =>
        simp only [List.get?_cons_succ] at h1 h2
        simpa using ih bs j x y h1 h2

theorem zipWith_blend_one :
    ∀ (l1 l2 : List ℚ), l1.length = l2.length →
      List.zipWith (fun t s => (1 - (1 : ℚ)) * t + 1 * s) l1 l2 = l2 := by
  intro l1
  induction l1 with
  | nil =>
    intro l2 h
    cases l2 with
    | nil => rfl
    | cons b bs => simp at h
  | cons a as ih =>
    intro l2 h
    cases l2 with
    | nil => simp at h
    | cons b bs =>
      have hlen : as.length = bs.length := by simpa using h
      simp only [List.zipWith_cons_cons, ih bs hlen]
      norm_num

theorem zipWith_blend_zero :
    ∀ (l1 l2 : List ℚ), l1.length = l2.length →
      List.zipWith (fun t s => (1 - (0 : ℚ)) * t + 0 * s) l1 l2 = l1 := by
  intro l1
  induction l1 with
  | nil =>
    intro l2 h
    cases l2 with
    | nil => rfl
    | cons b bs => simp at h
  | cons a as ih =>
    intro l2 h
    cases l2 with
    | nil => simp at h
    | cons b bs =>
      have hlen : as.length = bs.length := by simpa using h
      simp only [List.zipWith_cons_cons, ih bs hlen]
      norm_num

/-- C6: For shape-compatible parameter states and every `tau`,
`soft_update` blends the target toward the source elementwise,
`(1-τ)·target + τ·source` (identically for the auxiliary function state);
with `tau = 1` the target becomes identical to the source, with `tau = 0`
it is unchanged, and the source is never mutated by the call. -/
theorem c6_soft_update_blend (targ src : FuncParams) (tau : ℚ)
    (hp : targ.params.length = src.params.length)
    (hs : targ.function_state.length = src.function_state.length) :
    (∀ i x y, targ.params.get? i = some x → src.params.get? i = some y →
      (soft_update targ src tau).params.get? i =
        some ((1 - tau) * x + tau * y)) ∧
    (∀ i x y, targ.function_state.get? i = some x →
      src.function_state.get? i = some y →
      (soft_update targ src tau).function_state.get? i =
        some ((1 - tau) * x + tau * y)) ∧
    soft_update targ src 1 = src ∧
    soft_update targ src 0 = targ ∧
    (∀ p : TargetPair, (p.do_soft_update tau).src = p.src) := by
  refine ⟨?_, ?_, ?_, ?_, fun p => rfl⟩
  · intro i x y h1 h2
    exact zipWith_get_some _ _ _ i x y h1 h2
  · intro i x y h1 h2
    exact zipWith_get_some _ _ _ i x y h1 h2
  · obtain ⟨tp, tf⟩ := targ
    obtain ⟨sp, sf⟩ := src
    simp only [soft_update, FuncParams.mk.injEq]
    exact ⟨zipWith_blend_one tp sp hp, zipWith_blend_one tf sf hs⟩
  · obtain ⟨tp, tf⟩ := targ
    obtain ⟨sp, sf⟩ := src
    simp only [soft_update, FuncParams.mk.injEq]
    exact ⟨zipWith_blend_zero tp sp hp, zipWith_blend_zero tf sf hs⟩

/-- Witness for C6: concrete hard copy and no-op on `exFPTarg`/`exFPSrc`. -/
theorem c6_soft_update_blend_witness :
    soft_update exFPTarg exFPSrc 1 = exFPSrc ∧
    soft_update exFPTarg exFPSrc 0 = exFPTarg :=
  ⟨(c6_soft_update_blend exFPTarg exFPSrc 1 rfl rfl).2.2.1,
   (c6_soft_update_blend exFPTarg exFPSrc 0 rfl rfl).2.2.2.1⟩

/-- C7: One `update` call treats the computed target `G` as a fixed label:
the gradient step changes only the trained parameters (the target value
function's and target policy's parameters are unchanged), and the new
trained parameters depend on the target parameters only through the value
of `G`. -/
theorem c7_update_is_stop_gradient_frame
    (compute_target : List ℚ → List ℚ → ℚ)
    (grad_step : List ℚ → ℚ → List ℚ) (st : TDUpdaterState) :
    (td_update compute_target grad_step st).theta_targ = st.theta_targ ∧
    (td_update compute_target grad_step st).theta_pi_targ =
      st.theta_pi_targ ∧
    ∀ st2 : TDUpdaterState, st2.theta = st.theta →
      compute_target st2.theta_targ st2.theta_pi_targ =
        compute_target st.theta_targ st.theta_pi_targ →
      (td_update compute_target grad_step st2).theta =
        (td_update compute_target grad_step st).theta := by
  refine ⟨rfl, rfl, fun st2 h1 h2 => ?_⟩
  simp only [td_update, h1, h2]

/-- Witness for C7: a concrete update leaves the target parameters in
place, and two states differing only in target parameters that induce the
same `G` receive the same trained parameters. -/
theorem c7_update_is_stop_gradient_frame_witness :
    (td_update (fun _ _ => 1) (fun th g => th.map (fun x => x - g))
      exUpdSt).theta_targ = exUpdSt.theta_targ ∧
    (td_update (fun _ _ => 1) (fun th g => th.map (fun x => x - g))
      exUpdSt2).theta =
      (td_update (fun _ _ => 1) (fun th g => th.map (fun x => x - g))
        exUpdSt).theta :=
  ⟨(c7_update_is_stop_gradient_frame (fun _ _ => 1)
      (fun th g => th.map (fun x => x - g)) exUpdSt).1,
   (c7_update_is_stop_gradient_frame (fun _ _ => 1)
      (fun th g => th.map (fun x => x - g)) exUpdSt).2.2 exUpdSt2 rfl rfl⟩

/-! ## Claims about the reward tracer -/

theorem firstDoneIdx_lt (l : List (Transition σ α)) :
    ∀ d t tr, firstDoneIdx l = some d → t < d → l.get? t = some tr →
      tr.done = false := by
  induction l with
  | nil => intro d t tr h _ _; exact Option.noConfusion h
  | cons x xs ih =>
    intro d t tr hfd hlt hget
    by_cases hx : x.done = true
    · simp only [firstDoneIdx, hx, if_true, Option.some.injEq] at hfd
      omega
    · simp only [firstDoneIdx, hx, if_false, Bool.false_eq_true] at hfd
      cases hfd2 : firstDoneIdx xs with
      | none => rw [hfd2] at hfd; simp at hfd
      | some d0 =>
        rw [hfd2] at hfd
        simp only [Option.map_some', Option.some.injEq] at hfd
        cases t with
        | zero =>
          simp only [List.get?_cons_zero, Option.some.injEq] at hget
          subst hget
          simpa using hx
        | succ t0 =>
          simp only [List.get?_cons_succ] at hget
          exact ih d0 t0 tr hfd2 (by omega) hget

theorem firstDoneIdx_self (l : List (Transition σ α)) :
    ∀ d tr, firstDoneIdx l = some d → l.get? d = some tr →
      tr.done = true := by
  induction l with
  | nil => intro d tr h _; exact Option.noConfusion h
  | cons x xs ih =>
    intro d tr hfd hget
    by_cases hx : x.done = true
    · simp only [firstDoneIdx, hx, if_true, Option.some.injEq] at hfd
      subst hfd
      simp only [List.get?_cons_zero, Option.some.injEq] at hget
      subst hget
      exact hx
    · simp only [firstDoneIdx, hx, if_false, Bool.false_eq_true] at hfd
      cases hfd2 : firstDoneIdx xs with
      | none => rw [hfd2] at hfd; simp at hfd
      | some d0 =>
        rw [hfd2] at hfd
        simp only [Option.map_some', Option.some.injEq] at hfd
        subst hfd
        simp only [List.get?_cons_succ] at hget
        exact ih d0 tr hfd2 hget

theorem firstDoneIdx_none_all (l : List (Transition σ α)) :
    firstDoneIdx l = none → ∀ tr ∈ l, tr.done = false := by
  induction l with
  | nil => intro _ tr h; simp at h
  | cons x xs ih =>
    intro h tr htr
    by_cases hx : x.done = true
    · simp [firstDoneIdx, hx] at h
    · simp only [firstDoneIdx, hx, if_false, Bool.false_eq_true,
        Option.map_eq_none'] at h
      rcases List.mem_cons.mp htr with rfl | hmem
      · simpa using hx
      · exact ih h tr hmem

theorem drop_take_one (l : List (Transition σ α)) (t : Nat)
    (x : Transition σ α) (h : l.get? t = some x) :
    (l.drop t).take 1 = [x] := by
  have h0 : (l.drop t).get? 0 = some x := by
    rw [List.get?_eq_getElem?, List.getElem?_drop]
    simpa [List.get?_eq_getElem?] using h
  cases hd : l.drop t with
  | nil => rw [hd] at h0; simp at h0
  | cons y ys =>
    rw [hd] at h0
    simp only [List.get?_cons_zero, Option.some.injEq] at h0
    subst h0
    rfl

/-- C8: Running the tracer with `n = 1`, `γ = 0.99` on
`(s0, a0, r=1, done=False)` then `(s1, a1, r=1, done=True)` emits exactly
two batches, `Rn=1, In=0.99, S_next=s1` and `Rn=1, In=0, S_next=terminal`;
in general with `n = 1` every emitted batch carries the reward of its start
transition as `Rn` and `In = 0` if that transition is terminal, else `γ`. -/
theorem c8_nstep_scenario_and_single_step :
    (nstepTrace 1 (99/100) exTraj 2 =
      [⟨0, 0, 0, 1, 99/100, 1⟩, ⟨1, 1, 0, 1, 0, 2⟩]) ∧
    ∀ (σ α : Type) (γ : ℚ) (traj : List (Transition σ α)) (sTerm : σ)
      (b : NStepBatch σ α), b ∈ nstepTrace 1 γ traj sTerm →
      ∃ tr, tr ∈ traj ∧ b.s = tr.s ∧ b.a = tr.a ∧ b.logp = tr.logp ∧
        b.Rn = tr.r ∧ b.In = (if tr.done then 0 else γ) := by
  constructor
  · have e0 : nstepEmitAt 1 ((99 : ℚ)/100) exTraj 2 0 =
        some ⟨0, 0, 0, 1, 99/100, 1⟩ := by
      norm_num [nstepEmitAt, exTraj, firstDoneIdx, discSum]
    have e1 : nstepEmitAt 1 ((99 : ℚ)/100) exTraj 2 1 =
        some ⟨1, 1, 0, 1, 0, 2⟩ := by
      norm_num [nstepEmitAt, exTraj, firstDoneIdx, discSum]
    unfold nstepTrace
    have hr : List.range exTraj.length = [0, 1] := by decide
    rw [hr]
    simp [List.filterMap_cons, e0, e1]
  · intro σ α γ traj sTerm b hb
    unfold nstepTrace at hb
    rw [List.mem_filterMap] at hb
    obtain ⟨t, _, hemit⟩ := hb
    unfold nstepEmitAt at hemit
    split at hemit
    · exact absurd hemit (by simp)
    · rename_i tr0 hg
      have htr0 : tr0 ∈ traj := List.get?_mem hg
      split at hemit
      · rename_i d hd
        split at hemit
        · exact absurd hemit (by simp)
        · rename_i hdt
          split at hemit
          · rename_i htn
            split at hemit
            · rename_i trn hg2
              have hb2 := Option.some.inj hemit
              subst hb2
              have hdone : tr0.done = false :=
                firstDoneIdx_lt traj d t tr0 hd (by omega) hg
              refine ⟨tr0, htr0, rfl, rfl, rfl, ?_, ?_⟩
              · show discSum γ ((traj.drop t).take 1) = tr0.r
                rw [drop_take_one traj t tr0 hg]
                simp [discSum]
              · show γ ^ 1 = _
                rw [hdone]
                simp
            · exact absurd hemit (by simp)
          · rename_i htn
            have hb2 := Option.some.inj hemit
            subst hb2
            have htd : t = d := by omega
            subst htd
            have hdone : tr0.done = true :=
              firstDoneIdx_self traj t tr0 hd hg
            refine ⟨tr0, htr0, rfl, rfl, rfl, ?_, ?_⟩
            · show discSum γ ((traj.drop t).take (t + 1 - t)) = tr0.r
              have h1 : t + 1 - t = 1 := by omega
              rw [h1, drop_take_one traj t tr0 hg]
              simp [discSum]
            · show (0 : ℚ) = _
              rw [hdone]
              simp
      · rename_i hd
        split at hemit
        · rename_i hlen
          split at hemit
          · rename_i trn hg2
            have hb2 := Option.some.inj hemit
            subst hb2
            have hdone : tr0.done = false :=
              firstDoneIdx_none_all traj hd tr0 htr0
            refine ⟨tr0, htr0, rfl, rfl, rfl, ?_, ?_⟩
            · show discSum γ ((traj.drop t).take 1) = tr0.r
              rw [drop_take_one traj t tr0 hg]
              simp [discSum]
            · show γ ^ 1 = _
              rw [hdone]
              simp
          · exact absurd hemit (by simp)
        · exact absurd hemit (by simp)

/-- Witness for C8: the first emitted batch of the concrete scenario
satisfies the single-step characterization. -/
theorem c8_nstep_scenario_and_single_step_witness :
    ∃ tr, tr ∈ exTraj ∧ (⟨0, 0, 0, 1, 99/100, 1⟩ : NStepBatch ℕ ℕ).s = tr.s ∧
      (⟨0, 0, 0, 1, 99/100, 1⟩ : NStepBatch ℕ ℕ).a = tr.a ∧
      (⟨0, 0, 0, 1, 99/100, 1⟩ : NStepBatch ℕ ℕ).logp = tr.logp ∧
      (⟨0, 0, 0, 1, 99/100, 1⟩ : NStepBatch ℕ ℕ).Rn = tr.r ∧
      (⟨0, 0, 0, 1, 99/100, 1⟩ : NStepBatch ℕ ℕ).In =
        (if tr.done then 0 else 99/100) :=
  c8_nstep_scenario_and_single_step.2 ℕ ℕ (99/100) exTraj 2
    ⟨0, 0, 0, 1, 99/100, 1⟩
    (by rw [c8_nstep_scenario_and_single_step.1]; exact List.mem_cons_self _ _)

/-! ## Claims about the worker and the meta-policy wrapper -/

/-- C9: Every call to `ApexWorker.trace` — whether or not the transition is
terminal — performs `q_targ.soft_update(q, tau=0.001)` as a side effect:
the resulting target parameters are always the soft update of the previous
target toward the trained q-function. -/
theorem c9_trace_always_soft_updates
    (tracer_add : τ → σ → α → ℚ → Bool → ℚ → τ) (tracer_flush : τ → β × τ)
    (td_error_of : β → ℚ) (beta_at : Nat → ℚ) (T : Nat)
    (st : ApexWorkerState τ β) (s : σ) (a : α) (r : ℚ) (done : Bool)
    (logp : ℚ) :
    (ApexWorker.trace tracer_add tracer_flush td_error_of beta_at T st
        s a r done logp).q_targ =
      soft_update st.q_targ st.q (1 / 1000) := by
  cases done <;> simp [ApexWorker.trace]

/-- C10: `MetaPolicyEnv.step` returns normally iff a current state is
stored (i.e. `reset` has been called) and the meta action is a member of
`Discrete(len(arms))`; under those preconditions it returns the stepped
state with the sampled lower-level action and its log-propensity recorded
in the info dict, the log-propensity being `0.` for an arm that does not
accept `return_logp`. -/
theorem c10_meta_policy_step_guards
    (env_step : σ → α → σ × ℚ × Bool) (st : MetaPolicyEnv σ α)
    (a_meta : Nat) :
    ((MetaPolicyEnv.step env_step st a_meta).isSome = true ↔
      a_meta < st.arms.length ∧ st.cur_s.isSome = true) ∧
    (∀ (s0 : σ) (h : a_meta < st.arms.length), st.cur_s = some s0 →
      MetaPolicyEnv.step env_step st a_meta =
        some ({ st with
            cur_s := some (env_step s0 ((st.arms.get ⟨a_meta, h⟩).call s0).1).1 },
          (env_step s0 ((st.arms.get ⟨a_meta, h⟩).call s0).1).1,
          (env_step s0 ((st.arms.get ⟨a_meta, h⟩).call s0).1).2.1,
          (env_step s0 ((st.arms.get ⟨a_meta, h⟩).call s0).1).2.2,
          ⟨((st.arms.get ⟨a_meta, h⟩).call s0).1,
            ((st.arms.get ⟨a_meta, h⟩).call s0).2⟩)) ∧
    (∀ (f : σ → α) (s0 : σ), (Arm.plain f).call s0 = (f s0, 0)) := by
  refine ⟨?_, ?_, fun f s0 => rfl⟩
  · unfold MetaPolicyEnv.step
    by_cases h : a_meta < st.arms.length
    · rw [dif_pos h]
      cases hcs : st.cur_s with
      | none => simp [h]
      | some s0 => simp [h]
    · rw [dif_neg h]
      simp [h]
  · intro s0 h hcs
    unfold MetaPolicyEnv.step
    rw [dif_pos h, hcs]

/-- Witness for C10: stepping the concrete wrapped environment through arm
`0` (which does not accept `return_logp`, hence `logp = 0`). -/
theorem c10_meta_policy_step_guards_witness :
    MetaPolicyEnv.step exEnvStep exMeta 0 =
      some ({ exMeta with cur_s := some 11 }, 11, 2, false, ⟨6, 0⟩) ∧
    (Arm.plain (fun s : ℕ => s + 1)).call 5 = (6, 0) :=
  ⟨(c10_meta_policy_step_guards exEnvStep exMeta 0).2.1 5 (by decide) rfl,
   (c10_meta_policy_step_guards exEnvStep exMeta 0).2.2 (fun s => s + 1) 5⟩
